import Mathlib

/-!
Verification of the Spanishify content-script pipeline (src/content.js).

The repository ships two revisions of the content script concatenated in
src/content.js; the later revision (the one exercised by the jest tests:
`translatePage` at lines 647-781, `extractMainContent` at lines 783-877,
`translateText` at lines 896-956) is taken as the authoritative code and is
the one embedded here.  Strings model JavaScript strings; the handful of
string primitives the script uses (trim, split on the fixed separator
token, join) are given executable structural definitions that mirror the
JavaScript semantics so that concrete runs reduce by `rfl`/`decide`.
-/

/-- Characters removed by JavaScript `String.prototype.trim` (the whitespace
actually occurring in this pipeline: space, tab, newline, carriage return). -/
def isSpaceChar (c : Char) : Bool := c == ' ' || c == '\t' || c == '\n' || c == '\r'

/-- Trim leading and trailing whitespace from a character list. -/
def trimChars (l : List Char) : List Char :=
  ((l.dropWhile isSpaceChar).reverse.dropWhile isSpaceChar).reverse

/-- JavaScript `s.trim()`. -/
def jsTrim (s : String) : String := String.mk (trimChars s.data)

/-- The batch separator token used by `translatePage` (content.js line 752):
the composite request joins unit texts with this token and the response is
split on it again. -/
def sepToken : String := "\n---\n"

/-- JavaScript `s.split('\n---\n')` on the underlying character list:
scan left to right, cutting at each occurrence of the five-character
separator. -/
def splitSepChars : List Char → List (List Char)
  | [] => [[]]
  | '\n' :: '-' :: '-' :: '-' :: '\n' :: rest => [] :: splitSepChars rest
  | c :: rest =>
    match splitSepChars rest with
    | [] => [[c]]
    | p :: ps => (c :: p) :: ps

/-- JavaScript `translatedText.split('\n---\n')` (content.js line 758). -/
def jsSplitSep (s : String) : List String := (splitSepChars s.data).map String.mk

/-- JavaScript `array.join('\n---\n')` (content.js line 752). -/
def joinSep : List String → String
  | [] => ""
  | [s] => s
  | s :: t :: rest => s ++ sepToken ++ joinSep (t :: rest)

/-- The composite request string for one batch:
`batch.map(node => node.textContent.trim()).join('\n---\n')`
(content.js line 752). -/
def serializeBatch (b : List String) : String := joinSep (b.map jsTrim)

/-- Distribution of the split response parts onto the units of one batch
(content.js lines 761-765):
`batch.forEach((node, index) => { if (translatedParts[index]) node.textContent = translatedParts[index]; })`.
A unit is overwritten only when a part at its index exists and is truthy
(a non-empty string); otherwise it keeps its original text. -/
def distribute : List String → List String → List String
  | [], _ => []
  | o :: os, [] => o :: os
  | o :: os, p :: ps => (if p = "" then o else p) :: distribute os ps

/-- `for (let i = 0; i < textNodes.length; i += batchSize)` with
`batchSize = 5` and `batch = textNodes.slice(i, i + batchSize)`
(content.js lines 749-751): contiguous batches of five, last batch shorter. -/
def batches5 : List String → List (List String)
  | [] => []
  | [a] => [[a]]
  | [a, b] => [[a, b]]
  | [a, b, c] => [[a, b, c]]
  | [a, b, c, d] => [[a, b, c, d]]
  | a :: b :: c :: d :: e :: rest => [a, b, c, d, e] :: batches5 rest

/-- The sequential per-batch loop body of `translatePage`
(content.js lines 750-771), with `translateText` abstracted as an oracle
`tr : String → Option String` (`none` models a thrown translation error).
On success the split parts are distributed onto the batch and the loop
continues; on a thrown error the catch block shows a notification and
executes `return`, so the current batch and every later batch keep their
original texts.  The second component records whether an error was
surfaced. -/
def runBatches (tr : String → Option String) : List (List String) → List String × Bool
  | [] => ([], false)
  | b :: bs =>
    match tr (serializeBatch b) with
    | some t =>
      let r := runBatches tr bs
      (distribute b (jsSplitSep t) ++ r.1, r.2)
    | none => (b ++ bs.flatten, true)

/-- The unit texts after a full `translatePage` run over `units`
(content.js lines 748-771). -/
def translatePageUnits (tr : String → Option String) (units : List String) : List String :=
  (runBatches tr (batches5 units)).1

/-- Twelve concrete translatable units, trim-stable. -/
def exUnits : List String :=
  ["u1", "u2", "u3", "u4", "u5", "u6", "u7", "u8", "u9", "u10", "u11", "u12"]

/-- A concrete translation oracle for the 12-unit scenario of claim C1: the
first batch answers with all five parts, the second with only three of five
parts, the third with both parts. -/
def exTr : String → Option String := fun s =>
  if s = "u1\n---\nu2\n---\nu3\n---\nu4\n---\nu5" then
    some "t1\n---\nt2\n---\nt3\n---\nt4\n---\nt5"
  else if s = "u6\n---\nu7\n---\nu8\n---\nu9\n---\nu10" then
    some "t6\n---\nt7\n---\nt8"
  else if s = "u11\n---\nu12" then
    some "t11\n---\nt12"
  else none

theorem batches5_flatten (l : List String) : (batches5 l).flatten = l := by
  match l with
  | [] => rfl
  | [a] => rfl
  | [a, b] => rfl
  | [a, b, c] => rfl
  | [a, b, c, d] => rfl
  | a :: b :: c :: d :: e :: rest =>
    simp only [batches5, List.flatten_cons, List.cons_append, List.nil_append,
      batches5_flatten rest]

theorem batches5_mem_length (l : List String) :
    ∀ b ∈ batches5 l, 1 ≤ b.length ∧ b.length ≤ 5 := by
  match l with
  | [] => intro b hb; simp [batches5] at hb
  | [a] => intro b hb; simp [batches5] at hb; simp [hb]
  | [a, b] => intro c hc; simp [batches5] at hc; simp [hc]
  | [a, b, c] => intro d hd; simp [batches5] at hd; simp [hd]
  | [a, b, c, d] => intro e he; simp [batches5] at he; simp [he]
  | a :: b :: c :: d :: e :: rest =>
    intro x hx
    simp only [batches5, List.mem_cons] at hx
    rcases hx with h | h
    · simp [h]
    · exact batches5_mem_length rest x h

theorem batches5_ne_nil (a : String) (l : List String) :
    batches5 (a :: l) ≠ [] := by
  match l with
  | [] => simp [batches5]
  | [b] => simp [batches5]
  | [b, c] => simp [batches5]
  | [b, c, d] => simp [batches5]
  | b :: c :: d :: e :: rest => simp [batches5]

theorem batches5_dropLast_length (l : List String) :
    ∀ b ∈ (batches5 l).dropLast, b.length = 5 := by
  match l with
  | [] => intro b hb; simp [batches5] at hb
  | [a] => intro b hb; simp [batches5] at hb
  | [a, b] => intro c hc; simp [batches5] at hc
  | [a, b, c] => intro d hd; simp [batches5] at hd
  | [a, b, c, d] => intro e he; simp [batches5] at he
  | a :: b :: c :: d :: e :: rest =>
    intro x hx
    match hr : rest with
    | [] => simp [batches5] at hx
    | r :: rs =>
      obtain ⟨y, ys, hy⟩ : ∃ y ys, batches5 (r :: rs) = y :: ys := by
        cases h : batches5 (r :: rs) with
        | nil => exact absurd h (batches5_ne_nil r rs)
        | cons y ys => exact ⟨y, ys, rfl⟩
      rw [show batches5 (a :: b :: c :: d :: e :: r :: rs) =
          [a, b, c, d, e] :: batches5 (r :: rs) from rfl, hy,
        List.dropLast_cons₂, List.mem_cons, ← hy] at hx
      rcases hx with h | h
      · simp [h]
      · exact batches5_dropLast_length (r :: rs) x h

theorem batches5_twelve (l : List String) (h : l.length = 12) :
    (batches5 l).map List.length = [5, 5, 2] := by
  match l with
  | a1 :: a2 :: a3 :: a4 :: a5 :: a6 :: a7 :: a8 :: a9 :: a10 :: a11 :: a12 :: rest =>
    have hr : rest = [] := by
      have : rest.length = 0 := by simpa using h
      exact List.eq_nil_of_length_eq_zero this
    subst hr
    rfl
  | [] => simp at h
  | [a1] => simp at h
  | [a1, a2] => simp at h
  | [a1, a2, a3] => simp at h
  | [a1, a2, a3, a4] => simp at h
  | [a1, a2, a3, a4, a5] => simp at h
  | [a1, a2, a3, a4, a5, a6] => simp at h
  | [a1, a2, a3, a4, a5, a6, a7] => simp at h
  | [a1, a2, a3, a4, a5, a6, a7, a8] => simp at h
  | [a1, a2, a3, a4, a5, a6, a7, a8, a9] => simp at h
  | [a1, a2, a3, a4, a5, a6, a7, a8, a9, a10] => simp at h
  | [a1, a2, a3, a4, a5, a6, a7, a8, a9, a10, a11] => simp at h

set_option maxRecDepth 8000

/-- C1 counterexample: in the 12-unit scenario with the second batch
answering 3 of 5 parts, unit 8 (index 7) does NOT keep its original text
"u8" as the claim states; it receives the third response part "t8", because
the three parts cover batch indices 0-2, i.e. units 6, 7 and 8. -/
theorem claim_C1_counterexample :
    (translatePageUnits exTr exUnits).get? 7 = some "t8" ∧
      (translatePageUnits exTr exUnits).get? 7 ≠ some "u8" := by
  constructor
  · decide
  · decide

/-- C1 amended: the orchestrator partitions the units into contiguous
batches of exactly 5 (the last possibly shorter); with 12 units exactly 3
batches of sizes 5, 5, 2 are issued; and when the second batch's response
splits into only 3 of its 5 parts, units 6-8 receive their translations
while the trailing units 9-10 (which have no corresponding part) keep
their original text. -/
theorem claim_C1_amended (units : List String) :
    (batches5 units).flatten = units ∧
    (∀ b ∈ (batches5 units).dropLast, b.length = 5) ∧
    (∀ b ∈ batches5 units, 1 ≤ b.length ∧ b.length ≤ 5) ∧
    (units.length = 12 → (batches5 units).map List.length = [5, 5, 2]) ∧
    translatePageUnits exTr exUnits =
      ["t1", "t2", "t3", "t4", "t5", "t6", "t7", "t8", "u9", "u10", "t11", "t12"] :=
  ⟨batches5_flatten units, batches5_dropLast_length units, batches5_mem_length units,
    batches5_twelve units, by decide⟩

/-- C1 witness: the amended claim applied to the concrete 12-unit list. -/
theorem claim_C1_witness :
    (batches5 exUnits).map List.length = [5, 5, 2] ∧
      (["u1", "u2", "u3", "u4", "u5"] : List String).length = 5 :=
  ⟨(claim_C1_amended exUnits).2.2.2.1 (by decide),
    (claim_C1_amended exUnits).2.1 ["u1", "u2", "u3", "u4", "u5"] (by decide)⟩

/-- C10: in batch-response distribution, a part that is the empty string -
at any position, not only a trailing one - never overwrites its unit (JS
`if (translatedParts[index])` treats "" as falsy), and every distributed
unit text is either the unit's original text or a non-empty response part,
so no unit is ever set to empty text by translation. -/
theorem claim_C10 (b parts : List String) (i : Nat) :
    (parts.get? i = some "" → (distribute b parts).get? i = b.get? i) ∧
    ((distribute b parts).get? i = b.get? i ∨
      ∃ p, (distribute b parts).get? i = some p ∧ p ≠ "") := by
  induction b generalizing parts i with
  | nil =>
    constructor
    · intro _; rfl
    · left; rfl
  | cons o os ih =>
    match parts with
    | [] =>
      constructor
      · intro h; simp at h
      · left; rfl
    | p :: ps =>
      match i with
      | 0 =>
        constructor
        · intro h
          simp only [List.get?] at h
          have hp : p = "" := by injection h
          simp [distribute, hp]
        · by_cases hp : p = ""
          · left; simp [distribute, hp]
          · right; exact ⟨p, by simp [distribute, hp], hp⟩
      | Nat.succ j =>
        have := ih ps j
        constructor
        · intro h
          simpa [distribute] using this.1 (by simpa using h)
        · rcases this.2 with h | ⟨q, hq, hne⟩
          · left; simpa [distribute] using h
          · right; exact ⟨q, by simpa [distribute] using hq, hne⟩

/-- C10 witness: a batch of three units whose response has an empty middle
part: the middle unit keeps its original text. -/
theorem claim_C10_witness :
    (distribute ["a1", "a2", "a3"] ["b1", "", "b3"]).get? 1 =
      (["a1", "a2", "a3"] : List String).get? 1 :=
  (claim_C10 ["a1", "a2", "a3"] ["b1", "", "b3"] 1).1 (by decide)

/-- C4: if the translation oracle throws on one batch (after `done` batches
succeeded), the orchestrator aborts the run: the failing batch and every
later batch keep their original unit texts, the already-processed batches
keep their translated texts (no rollback), and the error flag (the user
notification) is set. -/
theorem claim_C4 (tr : String → Option String) (done todo : List (List String))
    (b : List String)
    (hdone : ∀ c ∈ done, ∃ t, tr (serializeBatch c) = some t)
    (hfail : tr (serializeBatch b) = none) :
    runBatches tr (done ++ b :: todo) =
      ((runBatches tr done).1 ++ (b ++ todo.flatten), true) := by
  induction done with
  | nil => simp [runBatches, hfail]
  | cons c cs ih =>
    obtain ⟨t, ht⟩ := hdone c (List.mem_cons_self c cs)
    have ih2 := ih (fun x hx => hdone x (List.mem_cons_of_mem c hx))
    simp only [List.cons_append, runBatches, ht, List.append_eq, ih2, List.append_assoc]

/-- C4 witness: one successful batch, then a failing batch, then an
unprocessed batch. -/
theorem claim_C4_witness :
    runBatches (fun s => if s = "aa" then some "ta" else none)
        [["aa"], ["bb"], ["cc"]] =
      ((runBatches (fun s => if s = "aa" then some "ta" else none) [["aa"]]).1 ++
        (["bb"] ++ [["cc"]].flatten), true) :=
  claim_C4 (fun s => if s = "aa" then some "ta" else none) [["aa"]] [["cc"]] ["bb"]
    (fun c hc => by
      simp only [List.mem_singleton] at hc
      subst hc
      exact ⟨"ta", by decide⟩)
    (by decide)

/-- JavaScript `parseInt(difficulty) || 5` (content.js line 960): a numeric
string parses to its value, except that 0 and unparsable strings (NaN)
are falsy and yield the default level 5.  (Decimal-digit strings are the
only difficulty values the extension ever passes.) -/
def jsLevel (difficulty : String) : Nat :=
  match difficulty.toNat? with
  | some 0 => 5
  | some n => n
  | none => 5

/-- `getPromptForDifficulty` (content.js lines 958-982): the numeric level
selects vocabulary/grammar/complexity/idiom feature strings which are
interpolated into the fixed prompt template. -/
def getPromptForDifficulty (text difficulty : String) : String :=
  let level := jsLevel difficulty
  let vocabulary := if level ≤ 3 then "A1 (basic)"
    else if level ≤ 6 then "A2-B1 (intermediate)" else "B2-C1 (advanced)"
  let grammar := if level ≤ 3 then "present tense only"
    else if level ≤ 6 then "present, past, and future"
    else "all tenses including subjunctive"
  let complexity := if level ≤ 3 then "simple sentences"
    else if level ≤ 6 then "compound sentences" else "complex sentences"
  let idioms := if level ≤ 3 then "no idioms"
    else if level ≤ 6 then "common idioms" else "sophisticated idioms"
  "Translate the following text(s) to Spanish at " ++ vocabulary ++
    " level. Use:\n\n- Vocabulary: " ++ vocabulary ++
    "\n- Grammar: " ++ grammar ++
    "\n- Sentence structure: " ++ complexity ++
    "\n- Idiomatic expressions: " ++ idioms ++
    "\n- Difficulty level: " ++ toString level ++
    "/10\n\nMaintain natural flow while keeping it at the appropriate level. " ++
    "If there are multiple texts separated by \x27---\x27, translate each one " ++
    "separately.\n\nText(s) to translate: \"" ++ text ++ "\""

/-- Outcome of one attempt at the remote translation interaction of
`translateText` (content.js lines 908-944): `ok body` is a successful
fetch whose parsed body yields `data.choices[0].message.content`;
`fetchFail` is a fetch that happened but failed (non-ok response or
malformed body); `noApiKey` is a missing credential, which throws before
any network call. -/
inductive RemoteOutcome where
  | ok (body : String)
  | fetchFail
  | noApiKey

/-- Observable client state: the translation cache (newest entry first,
mirroring `Map.set`/`Map.get`), the number of network calls issued, and
the number of user-facing failure notifications shown. -/
structure TransState where
  cache : List (String × String)
  remoteCalls : Nat
  notices : Nat

/-- `translationCache.get`/`has` on the association-list model. -/
def lookupCache : List (String × String) → String → Option String
  | [], _ => none
  | (k, v) :: rest, key => if k = key then some v else lookupCache rest key

/-- The cache key `` `${difficulty}:${text}` `` (content.js line 898):
the stringified difficulty and the exact source text joined by a colon,
with no normalization. -/
def cacheKey (difficulty text : String) : String := difficulty ++ ":" ++ text

/-- `translateText` (content.js lines 896-956) over an abstract remote
environment `env` mapping the built prompt to its outcome.  On a cache hit
the cached value is returned with no state change.  On a miss, a missing
credential throws before fetch; a failed fetch or malformed body throws
after it; both are caught, notify the user, and return the original text
without caching.  A successful call trims the completion, caches it under
the key, and returns it. -/
def translateText (env : String → RemoteOutcome) (text difficulty : String)
    (st : TransState) : String × TransState :=
  let key := cacheKey difficulty text
  match lookupCache st.cache key with
  | some v => (v, st)
  | none =>
    match env (getPromptForDifficulty text difficulty) with
    | RemoteOutcome.noApiKey =>
      (text, { st with notices := st.notices + 1 })
    | RemoteOutcome.fetchFail =>
      (text, { st with remoteCalls := st.remoteCalls + 1, notices := st.notices + 1 })
    | RemoteOutcome.ok body =>
      (jsTrim body,
        { st with cache := (key, jsTrim body) :: st.cache,
                  remoteCalls := st.remoteCalls + 1 })

theorem strData_append (a b : String) : (a ++ b).data = a.data ++ b.data := rfl

theorem strEq_of_data (a b : String) (h : a.data = b.data) : a = b := by
  cases a; cases b; cases h; rfl

/-- The cache key determines the difficulty component: keys built from the
same text but different difficulty strings are distinct. -/
theorem cacheKey_inj (d1 d2 t : String) (h : cacheKey d1 t = cacheKey d2 t) :
    d1 = d2 := by
  have hd : (d1.data ++ [':']) ++ t.data = (d2.data ++ [':']) ++ t.data := by
    have := congrArg String.data h
    simpa [cacheKey, strData_append] using this
  have h2 : d1.data ++ [':'] = d2.data ++ [':'] :=
    List.append_left_injective t.data hd
  exact strEq_of_data _ _ (List.append_left_injective [':'] h2)

/-- C2: with a cache that lacks the key and a remote call that succeeds,
calling `translateText` twice with the same text and difficulty issues
exactly one remote call: the first call increments the call counter, the
second is a cache hit returning the identical string with no network call
and no side effects at all (the state is unchanged).  Calling with the
same text but a different difficulty string afterwards issues a second
remote call, because the cache key concatenates the difficulty and the
exact source text, so the key is distinct. -/
theorem claim_C2 (env : String → RemoteOutcome) (text d d2 : String)
    (st : TransState) (body : String)
    (hmiss : lookupCache st.cache (cacheKey d text) = none)
    (hok : env (getPromptForDifficulty text d) = RemoteOutcome.ok body)
    (hne : d2 ≠ d)
    (hmiss2 : lookupCache st.cache (cacheKey d2 text) = none)
    (hcred : env (getPromptForDifficulty text d2) ≠ RemoteOutcome.noApiKey) :
    (translateText env text d st).2.remoteCalls = st.remoteCalls + 1 ∧
    (translateText env text d (translateText env text d st).2).2.remoteCalls =
      (translateText env text d st).2.remoteCalls ∧
    (translateText env text d (translateText env text d st).2).1 =
      (translateText env text d st).1 ∧
    (translateText env text d (translateText env text d st).2).2 =
      (translateText env text d st).2 ∧
    (translateText env text d2 (translateText env text d st).2).2.remoteCalls =
      (translateText env text d st).2.remoteCalls + 1 := by
  have h1 : translateText env text d st =
      (jsTrim body,
        { st with cache := (cacheKey d text, jsTrim body) :: st.cache,
                  remoteCalls := st.remoteCalls + 1 }) := by
    simp only [translateText, hmiss, hok]
  have hhit : lookupCache ((cacheKey d text, jsTrim body) :: st.cache)
      (cacheKey d text) = some (jsTrim body) := by
    simp [lookupCache]
  have h2 : translateText env text d (translateText env text d st).2 =
      (jsTrim body, (translateText env text d st).2) := by
    rw [h1]
    simp only [translateText, hhit]
  have hkeyne : cacheKey d text ≠ cacheKey d2 text := by
    intro h
    exact hne (cacheKey_inj d2 d text h.symm)
  have hmiss3 : lookupCache ((cacheKey d text, jsTrim body) :: st.cache)
      (cacheKey d2 text) = none := by
    simp only [lookupCache, if_neg hkeyne]
    exact hmiss2
  refine ⟨by rw [h1], by rw [h2], by rw [h2, h1], by rw [h2], ?_⟩
  rw [h1]
  simp only [translateText, hmiss3]
  cases henv : env (getPromptForDifficulty text d2) with
  | ok b2 => rfl
  | fetchFail => rfl
  | noApiKey => exact absurd henv hcred

/-- C2 witness: a fresh state, a constant successful remote environment,
text "hi", difficulties "3" and then "7". -/
theorem claim_C2_witness :
    (translateText (fun _ => RemoteOutcome.ok "hola") "hi" "3"
        (TransState.mk [] 0 0)).2.remoteCalls = (TransState.mk [] 0 0).remoteCalls + 1 :=
  (claim_C2 (fun _ => RemoteOutcome.ok "hola") "hi" "3" "7"
    (TransState.mk [] 0 0) "hola" rfl rfl (by decide) rfl (fun h => nomatch h)).1

/-- C3: on a cache miss, if the remote interaction fails in any way
(missing credential, non-success response or malformed body, i.e. any
outcome other than `ok`), `translateText` returns the original input text,
reports the failure through a user notification, and leaves the cache
unchanged (no entry is created), so a subsequent identical call misses the
cache again and re-attempts the remote interaction - producing a second
notification, and a second network call when the failure was a fetch
failure. -/
theorem claim_C3 (env : String → RemoteOutcome) (text d : String) (st : TransState)
    (hmiss : lookupCache st.cache (cacheKey d text) = none)
    (hfail : ∀ b, env (getPromptForDifficulty text d) ≠ RemoteOutcome.ok b) :
    (translateText env text d st).1 = text ∧
    (translateText env text d st).2.cache = st.cache ∧
    (translateText env text d st).2.notices = st.notices + 1 ∧
    lookupCache (translateText env text d st).2.cache (cacheKey d text) = none ∧
    (translateText env text d (translateText env text d st).2).2.notices =
      st.notices + 2 ∧
    (env (getPromptForDifficulty text d) = RemoteOutcome.fetchFail →
      (translateText env text d (translateText env text d st).2).2.remoteCalls =
        st.remoteCalls + 2) := by
  cases henv : env (getPromptForDifficulty text d) with
  | ok b => exact absurd henv (hfail b)
  | fetchFail =>
    have h1 : translateText env text d st =
        (text, { st with remoteCalls := st.remoteCalls + 1,
                         notices := st.notices + 1 }) := by
      simp only [translateText, hmiss, henv]
    have h2 : translateText env text d (translateText env text d st).2 =
        (text, { st with remoteCalls := st.remoteCalls + 1 + 1,
                         notices := st.notices + 1 + 1 }) := by
      rw [h1]
      simp only [translateText, hmiss, henv]
    exact ⟨by rw [h1], by rw [h1], by rw [h1], by rw [h1]; exact hmiss,
      by rw [h2], fun _ => by rw [h2]⟩
  | noApiKey =>
    have h1 : translateText env text d st =
        (text, { st with notices := st.notices + 1 }) := by
      simp only [translateText, hmiss, henv]
    have h2 : translateText env text d (translateText env text d st).2 =
        (text, { st with notices := st.notices + 1 + 1 }) := by
      rw [h1]
      simp only [translateText, hmiss, henv]
    exact ⟨by rw [h1], by rw [h1], by rw [h1], by rw [h1]; exact hmiss,
      by rw [h2], fun hc => nomatch hc⟩

/-- C3 witness: a fresh state with a remote environment that always fails
the fetch: the original text comes back, the cache stays empty, and two
calls produce two notifications and two network attempts. -/
theorem claim_C3_witness :
    (translateText (fun _ => RemoteOutcome.fetchFail) "hi" "3"
        (TransState.mk [] 0 0)).1 = "hi" :=
  (claim_C3 (fun _ => RemoteOutcome.fetchFail) "hi" "3" (TransState.mk [] 0 0)
    rfl (fun _ h => nomatch h)).1

/-- A DOM node: a text node or an element with a tag name, an attribute
list (document order, first occurrence wins as in `getAttribute`) and a
child list. -/
inductive HNode where
  | txt (s : String)
  | elem (tag : String) (attrs : List (String × String)) (children : List HNode)

/-- `getAttribute`: first binding of the key in the attribute list. -/
def getAttrL : List (String × String) → String → Option String
  | [], _ => none
  | (k, v) :: rest, key => if k = key then some v else getAttrL rest key

/-- All suffixes of a character list, longest first. -/
def tailsOf : List Char → List (List Char)
  | [] => [[]]
  | c :: rest => (c :: rest) :: tailsOf rest

/-- JavaScript substring containment, as used by CSS `[attr*="v"]`. -/
def containsSubstr (w sub : String) : Bool :=
  (tailsOf w.data).any (fun t => sub.data.isPrefixOf t)

/-- Split a character list on whitespace (for class-token lists). -/
def splitWS : List Char → List (List Char)
  | [] => [[]]
  | c :: rest =>
    if isSpaceChar c then [] :: splitWS rest
    else
      match splitWS rest with
      | [] => [[c]]
      | p :: ps => (c :: p) :: ps

/-- The whitespace-separated class tokens of an attribute list. -/
def classTokens (a : List (String × String)) : List String :=
  (splitWS ((getAttrL a "class").getD "").data).map String.mk

/-- The CSS selector forms occurring in `extractMainContent`
(content.js lines 792-803 and 812-823): a tag name, a class token
(`.c`), an exact id (`#i`), an exact attribute value (`[k="v"]`), an
attribute-substring (`[k*="v"]`), and attribute presence (`[hidden]`). -/
inductive Sel where
  | tag (t : String)
  | cls (c : String)
  | idIs (i : String)
  | attrEq (k v : String)
  | attrSub (k v : String)
  | attrPresent (k : String)

/-- Whether an element with tag `t` and attributes `a` matches a selector.
Only the tag and the attributes are consulted, never the children. -/
def matchTA (s : Sel) (t : String) (a : List (String × String)) : Bool :=
  match s with
  | Sel.tag u => t == u
  | Sel.cls c => (classTokens a).contains c
  | Sel.idIs i => getAttrL a "id" == some i
  | Sel.attrEq k v => getAttrL a k == some v
  | Sel.attrSub k v =>
    match getAttrL a k with
    | some w => containsSubstr w v
    | none => false
  | Sel.attrPresent k => (getAttrL a k).isSome

/-- Node-level selector match: text nodes never match. -/
def matchesSel (s : Sel) : HNode → Bool
  | HNode.txt _ => false
  | HNode.elem t a _ => matchTA s t a

/-- The `unwantedSelectors` list of the later `extractMainContent`
(content.js lines 792-803), in source order.  Note: unlike the earlier
revision, this list removes neither `form` elements nor the larger set of
noise class substrings (popup, modal, banner, ...). -/
def unwantedSelectorsV2 : List Sel :=
  [Sel.tag "script", Sel.tag "style", Sel.tag "iframe", Sel.tag "noscript",
   Sel.tag "link", Sel.tag "meta",
   Sel.attrSub "class" "ad-", Sel.attrSub "id" "ad-",
   Sel.attrSub "class" "advertisement",
   Sel.tag "header", Sel.tag "footer",
   Sel.cls "navigation", Sel.cls "nav",
   Sel.cls "sidebar",
   Sel.cls "cookie-banner",
   Sel.cls "newsletter-signup",
   Sel.cls "social-share",
   Sel.cls "comments"]

/-- The hidden-element selectors of `removeHidden` (content.js line 855):
`[style*="display: none"], [style*="visibility: hidden"], [hidden]`. -/
def hiddenSelectors : List Sel :=
  [Sel.attrSub "style" "display: none",
   Sel.attrSub "style" "visibility: hidden",
   Sel.attrPresent "hidden"]

/-- A node matches the noise-exclusion predicate of the later revision. -/
def noiseB (n : HNode) : Bool := unwantedSelectorsV2.any (fun s => matchesSel s n)

/-- A node matches the hidden-element predicate. -/
def hiddenB (n : HNode) : Bool := hiddenSelectors.any (fun s => matchesSel s n)

/-- The children of a node (empty for text nodes). -/
def childrenOf : HNode → List HNode
  | HNode.txt _ => []
  | HNode.elem _ _ cs => cs

mutual
/-- `node.textContent`: concatenation of all text leaves in order. -/
def textContentT : HNode → String
  | HNode.txt s => s
  | HNode.elem _ _ cs => textContentF cs
/-- `textContent` of a forest. -/
def textContentF : List HNode → String
  | [] => ""
  | n :: ns => textContentT n ++ textContentF ns
end

/-- `element.textContent.trim().length`, the content-length measure used
by the main-content selection loop (content.js line 828). -/
def textLenTrim (n : HNode) : Nat := (jsTrim (textContentT n)).length

mutual
/-- Every element subtree of a node (the node itself included when it is
an element) satisfies `q`. -/
def allElemsT (q : HNode → Bool) : HNode → Bool
  | HNode.txt _ => true
  | HNode.elem t a cs => q (HNode.elem t a cs) && allElemsF q cs
/-- Every element subtree of a forest satisfies `q`. -/
def allElemsF (q : HNode → Bool) : List HNode → Bool
  | [] => true
  | n :: ns => allElemsT q n && allElemsF q ns
end

mutual
/-- End state of `querySelectorAll(sel).forEach(el => el.remove())` /
document-order remove loops below a fixed root: every descendant matching
`p` is gone; `p` is evaluated on each node with its original subtree
(document order visits ancestors first, so earlier removals never affect
the text seen for a later candidate).  The root itself is not a removal
candidate.  The predicates used here are false on text nodes, which such
loops never remove. -/
def pruneT (p : HNode → Bool) : HNode → HNode
  | HNode.txt s => HNode.txt s
  | HNode.elem t a cs => HNode.elem t a (pruneF p cs)
/-- Removal pass over a forest of candidates. -/
def pruneF (p : HNode → Bool) : List HNode → List HNode
  | [] => []
  | n :: ns => if p n then pruneF p ns else pruneT p n :: pruneF p ns
end

mutual
/-- `querySelector` including the root: first match in pre-order. -/
def findT (s : Sel) : HNode → Option HNode
  | HNode.txt _ => none
  | HNode.elem t a cs =>
    if matchTA s t a then some (HNode.elem t a cs) else findF s cs
/-- First pre-order match in a forest. -/
def findF (s : Sel) : List HNode → Option HNode
  | [] => none
  | n :: ns =>
    match findT s n with
    | some m => some m
    | none => findF s ns
end

/-- `root.querySelector(sel)`: first matching descendant (the root itself
is excluded, as in the DOM API). -/
def querySel (s : Sel) (n : HNode) : Option HNode := findF s (childrenOf n)

/-- Serialize an attribute list. -/
def serializeAttrs : List (String × String) → String
  | [] => ""
  | (k, v) :: rest => " " ++ k ++ "=\"" ++ v ++ "\"" ++ serializeAttrs rest

mutual
/-- Serialize a node as HTML markup (for `innerHTML`). -/
def serializeT : HNode → String
  | HNode.txt s => s
  | HNode.elem t a cs =>
    "<" ++ t ++ serializeAttrs a ++ ">" ++ serializeF cs ++ "</" ++ t ++ ">"
/-- Serialize a forest: `element.innerHTML` is the serialization of its
children. -/
def serializeF : List HNode → String
  | [] => ""
  | n :: ns => serializeT n ++ serializeF ns
end

/-- The TreeWalker acceptance predicate of `translatePage`
(content.js lines 729-732): `const text = node.textContent.trim();
return text && text.length > 1 ? FILTER_ACCEPT : FILTER_REJECT`. -/
def acceptUnit (s : String) : Bool :=
  !(jsTrim s == "") && decide (1 < (jsTrim s).length)

mutual
/-- The Unit Partitioner: the `TreeWalker(root, SHOW_TEXT, acceptNode)`
loop of `translatePage` (content.js lines 725-741), collecting accepted
text nodes in document (pre-order, depth-first) order. -/
def partitionT : HNode → List String
  | HNode.txt s => if acceptUnit s then [s] else []
  | HNode.elem _ _ cs => partitionF cs
/-- Partition of a forest in document order. -/
def partitionF : List HNode → List String
  | [] => []
  | n :: ns => partitionT n ++ partitionF ns
end

mutual
/-- All text leaves of a node in document (pre-order, depth-first)
order, with no filtering. -/
def allTextLeavesT : HNode → List String
  | HNode.txt s => [s]
  | HNode.elem _ _ cs => allTextLeavesF cs
/-- All text leaves of a forest in document order. -/
def allTextLeavesF : List HNode → List String
  | [] => []
  | n :: ns => allTextLeavesT n ++ allTextLeavesF ns
end

/-- The tracking query parameters deleted by the later revision
(content.js line 867): `['utm_source', 'utm_medium', 'utm_campaign',
'ref', 'source']`. -/
def trackedNames : List String :=
  ["utm_source", "utm_medium", "utm_campaign", "ref", "source"]

/-- Break a character list at the first occurrence of `c`: the part
before it, and the part after it when it occurs. -/
def breakAtChar (c : Char) : List Char → List Char × Option (List Char)
  | [] => ([], none)
  | x :: rest =>
    if x = c then ([], some rest)
    else
      let r := breakAtChar c rest
      (x :: r.1, r.2)

/-- Split a character list on every occurrence of `c`. -/
def splitOnChar (c : Char) : List Char → List (List Char)
  | [] => [[]]
  | x :: rest =>
    if x = c then [] :: splitOnChar c rest
    else
      match splitOnChar c rest with
      | [] => [[x]]
      | p :: ps => (x :: p) :: ps

/-- One `k=v` query pair (`k` alone parses as `(k, "")`, and the value
keeps any further `=` characters, as `URLSearchParams` does). -/
def parsePair (l : List Char) : String × String :=
  match breakAtChar '=' l with
  | (k, none) => (String.mk k, "")
  | (k, some v) => (String.mk k, String.mk v)

/-- `new URL(href)` restricted to the absolute http/https URLs this model
covers: the base before the first `?` and the parsed query pairs.  Other
href values take the `catch` branch, exactly as an invalid URL does in
the script. -/
def jsNewUrl (h : String) : Except String (String × List (String × String)) :=
  if "http://".data.isPrefixOf h.data || "https://".data.isPrefixOf h.data then
    match breakAtChar '?' h.data with
    | (base, none) => Except.ok (String.mk base, [])
    | (base, some q) => Except.ok (String.mk base, (splitOnChar '&' q).map parsePair)
  else Except.error "Invalid URL"

/-- Join rendered query pairs with `&`. -/
def joinAmp : List String → String
  | [] => ""
  | [s] => s
  | s :: t :: rest => s ++ "&" ++ joinAmp (t :: rest)

/-- Rebuild a URL string from its base and its remaining query pairs
(`url.toString()` with an empty search omits the `?`). -/
def renderUrl (base : String) (ps : List (String × String)) : String :=
  match ps with
  | [] => base
  | _ => base ++ "?" ++ joinAmp (ps.map (fun p => p.1 ++ "=" ++ p.2))

/-- The per-link body of the link-cleaning loop (content.js lines
863-874): parse the href, delete every tracking parameter, write the URL
back; an unparsable href is left as it is (the `catch` branch). -/
def cleanHrefCaught (h : String) : String :=
  match jsNewUrl h with
  | Except.ok (base, ps) =>
    renderUrl base (ps.filter (fun p => !(trackedNames.contains p.1)))
  | Except.error _ => h

/-- Rewrite the `href` binding of an attribute list through
`cleanHrefCaught`, leaving every other attribute untouched. -/
def updateHrefAttrs : List (String × String) → List (String × String)
  | [] => []
  | (k, v) :: rest =>
    (if k = "href" then (k, cleanHrefCaught v) else (k, v)) :: updateHrefAttrs rest

mutual
/-- The link-cleaning pass over every `a` element of a subtree. -/
def cleanLinksT : HNode → HNode
  | HNode.txt s => HNode.txt s
  | HNode.elem t a cs =>
    HNode.elem t (if t = "a" then updateHrefAttrs a else a) (cleanLinksF cs)
/-- Link cleaning over a forest. -/
def cleanLinksF : List HNode → List HNode
  | [] => []
  | n :: ns => cleanLinksT n :: cleanLinksF ns
end

/-- `getElementsByTagName('a')` enumerates descendants only, so the loop
rewrites links strictly below the region root. -/
def cleanLinksRoot : HNode → HNode
  | HNode.txt s => HNode.txt s
  | HNode.elem t a cs => HNode.elem t a (cleanLinksF cs)

/-- The `removeEmpty` predicate (content.js lines 843-851): an element
whose `textContent.trim()` is empty and which has no `img` descendant is
removed.  False on text nodes, which the loop never removes. -/
def isEmptyElemB : HNode → Bool
  | HNode.txt _ => false
  | HNode.elem _ _ cs =>
    (jsTrim (textContentF cs) == "") && !((findF (Sel.tag "img") cs).isSome)

/-- The `mainSelectors` list of the later `extractMainContent`
(content.js lines 812-823), in source order. -/
def mainSelectorsV2 : List Sel :=
  [Sel.tag "article", Sel.tag "main",
   Sel.attrEq "role" "main", Sel.attrEq "role" "article",
   Sel.cls "post-content", Sel.cls "entry-content", Sel.cls "article-content",
   Sel.cls "content", Sel.idIs "content", Sel.cls "main-content"]

/-- The selection loop of `extractMainContent` (content.js lines 825-831):
`mainContent = temp.querySelector(selector);
if (mainContent && mainContent.textContent.trim().length > 100) break;`.
After a full loop with no break, `mainContent` holds the last selector's
query result (possibly null). -/
def scanSelectors (temp : HNode) : List Sel → Option HNode
  | [] => none
  | s :: rest =>
    match querySel s temp with
    | some m =>
      if rest.isEmpty then some m
      else if 100 < textLenTrim m then some m
      else scanSelectors temp rest
    | none => scanSelectors temp rest

/-- The fallback check of `extractMainContent` (content.js lines 834-837):
`if (!mainContent || mainContent.textContent.trim().length < 100)
mainContent = temp;`. -/
def selectMain (temp : HNode) : HNode :=
  match scanSelectors temp mainSelectorsV2 with
  | none => temp
  | some m => if textLenTrim m < 100 then temp else m

/-- Modelled from the spec: the selection policy as the specification
words it for claim C7 - test the ordered selector list and pick the first
match whose extracted text length exceeds the minimum threshold; `none`
when no selector match qualifies.  Used as the refinement reference to
compare with `selectMain`. -/
def specFirstQualifying (temp : HNode) : List Sel → Option HNode
  | [] => none
  | s :: rest =>
    match querySel s temp with
    | some m =>
      if 100 < textLenTrim m then some m else specFirstQualifying temp rest
    | none => specFirstQualifying temp rest

/-- `const temp = document.createElement('div'); temp.appendChild(
document.body.cloneNode(true))` followed by the unwanted-selector removal
(content.js lines 785-809).  The cloned body is itself a removal
candidate, the wrapper div is not. -/
def mkTemp (body : HNode) : HNode := HNode.elem "div" [] (pruneF noiseB [body])

/-- The whole region-processing pipeline of the later
`extractMainContent` (content.js lines 783-877) up to the final
`innerHTML` read: noise removal, main-content selection, removal of
empty elements, removal of hidden elements, link cleaning. -/
def extractRegion (body : HNode) : HNode :=
  cleanLinksRoot (pruneT hiddenB (pruneT isEmptyElemB (selectMain (mkTemp body))))

/-- The forest whose serialization `extractMainContent` returns
(`cleanContent.innerHTML`, content.js line 876). -/
def outputForest (body : HNode) : List HNode := childrenOf (extractRegion body)

/-- `extractMainContent` (content.js lines 783-877). -/
def extractMainContent (body : HNode) : String := serializeF (outputForest body)

/-- `extractMainContent` with the error plumbing made explicit: the only
fallible operation the script performs, `new URL`, is caught inside the
per-link `try/catch` (modeled in `cleanHrefCaught`), so no error ever
escapes and the function is total. -/
def extractMainContentE (body : HNode) : Except String String :=
  Except.ok (extractMainContent body)

/-- The caller-side content check of `translatePage` (content.js line
686): `if (!mainContent || mainContent.trim() === '') throw ...`. -/
def contentFound (body : HNode) : Bool := !(jsTrim (extractMainContent body) == "")

mutual
theorem partitionT_filter (n : HNode) :
    partitionT n = (allTextLeavesT n).filter acceptUnit := by
  match n with
  | HNode.txt s =>
    simp only [partitionT, allTextLeavesT, List.filter]
    cases h : acceptUnit s <;> simp [h]
  | HNode.elem t a cs =>
    simp only [partitionT, allTextLeavesT]
    exact partitionF_filter cs
theorem partitionF_filter (ns : List HNode) :
    partitionF ns = (allTextLeavesF ns).filter acceptUnit := by
  match ns with
  | [] => rfl
  | n :: rest =>
    simp only [partitionF, allTextLeavesF, List.filter_append,
      partitionT_filter n, partitionF_filter rest]
end

/-- C6: the Unit Partitioner returns exactly the text-bearing leaves of
the region in document (pre-order, depth-first) order, filtered by the
acceptance predicate (trimmed text non-empty and longer than one
character); re-partitioning an unmodified region is idempotent because
`partitionT` is a pure function of the region. -/
theorem claim_C6 (region : HNode) :
    partitionT region = (allTextLeavesT region).filter acceptUnit ∧
    partitionT region = partitionT region :=
  ⟨partitionT_filter region, rfl⟩

theorem scanSelectors_of_spec_some (sels : List Sel) (temp : HNode) (m : HNode)
    (h : specFirstQualifying temp sels = some m) :
    scanSelectors temp sels = some m ∧ 100 < textLenTrim m := by
  induction sels with
  | nil => simp [specFirstQualifying] at h
  | cons s rest ih =>
    cases hq : querySel s temp with
    | none =>
      simp only [specFirstQualifying, hq] at h
      simp only [scanSelectors, hq]
      exact ih h
    | some m0 =>
      simp only [specFirstQualifying, hq] at h
      by_cases h100 : 100 < textLenTrim m0
      · rw [if_pos h100] at h
        injection h with h
        subst h
        constructor
        · simp only [scanSelectors, hq]
          cases rest with
          | nil => simp
          | cons s2 rs => simp [h100]
        · exact h100
      · rw [if_neg h100] at h
        cases rest with
        | nil => simp [specFirstQualifying] at h
        | cons s2 rs =>
          have := ih h
          simp only [scanSelectors, hq, List.isEmpty_cons, if_neg h100]
          simpa using this

theorem scanSelectors_of_spec_none (sels : List Sel) (s : Sel) (temp : HNode)
    (h : specFirstQualifying temp (sels ++ [s]) = none) :
    scanSelectors temp (sels ++ [s]) = querySel s temp ∧
    (∀ m, querySel s temp = some m → ¬ 100 < textLenTrim m) := by
  induction sels with
  | nil =>
    simp only [List.nil_append] at h ⊢
    cases hq : querySel s temp with
    | none =>
      refine ⟨?_, fun m hm => nomatch hm⟩
      simp [scanSelectors, hq]
    | some m0 =>
      simp only [specFirstQualifying, hq] at h
      by_cases h100 : 100 < textLenTrim m0
      · rw [if_pos h100] at h; cases h
      · refine ⟨?_, fun m hm => ?_⟩
        · simp [scanSelectors, hq]
        · injection hm with hm
          subst hm
          exact h100
  | cons s0 rest ih =>
    simp only [List.cons_append] at h ⊢
    cases hq : querySel s0 temp with
    | none =>
      simp only [specFirstQualifying, hq] at h
      have := ih h
      simp only [scanSelectors, hq]
      exact this
    | some m0 =>
      simp only [specFirstQualifying, hq] at h
      by_cases h100 : 100 < textLenTrim m0
      · rw [if_pos h100] at h; cases h
      · rw [if_neg h100] at h
        have := ih h
        have hne : (rest ++ [s]).isEmpty = false := by
          cases rest <;> simp
        simp only [scanSelectors, hq, hne, Bool.false_eq_true, if_false,
          if_neg h100]
        exact this

/-- C7 amended: `selectMain` picks the first selector match whose trimmed
text length strictly exceeds 100; when no selector match qualifies (or
none matches), it falls back to the full cleaned subtree - except in one
boundary case the claim misses: when the last selector (`.main-content`)
matches an element whose trimmed text length is exactly 100, that element
is selected instead of the fallback, because the loop requires length
strictly greater than 100 but the fallback check only fires for length
strictly less than 100. -/
theorem claim_C7_amended (temp : HNode) :
    (∀ m, specFirstQualifying temp mainSelectorsV2 = some m →
      selectMain temp = m) ∧
    (specFirstQualifying temp mainSelectorsV2 = none →
      selectMain temp = temp ∨
      ∃ m, querySel (Sel.cls "main-content") temp = some m ∧
        textLenTrim m = 100 ∧ selectMain temp = m) := by
  constructor
  · intro m h
    obtain ⟨hscan, h100⟩ := scanSelectors_of_spec_some mainSelectorsV2 temp m h
    simp only [selectMain, hscan]
    rw [if_neg (show ¬ textLenTrim m < 100 by omega)]
  · intro h
    have hshape : mainSelectorsV2 =
        [Sel.tag "article", Sel.tag "main",
         Sel.attrEq "role" "main", Sel.attrEq "role" "article",
         Sel.cls "post-content", Sel.cls "entry-content", Sel.cls "article-content",
         Sel.cls "content", Sel.idIs "content"] ++ [Sel.cls "main-content"] := rfl
    rw [hshape] at h
    obtain ⟨hscan, hbound⟩ := scanSelectors_of_spec_none _ _ temp h
    rw [← hshape] at hscan
    cases hq : querySel (Sel.cls "main-content") temp with
    | none =>
      left
      simp [selectMain, hscan, hq]
    | some m =>
      have hle := hbound m hq
      by_cases hlt : textLenTrim m < 100
      · left
        simp [selectMain, hscan, hq, hlt]
      · right
        refine ⟨m, rfl, by omega, ?_⟩
        simp [selectMain, hscan, hq, hlt]

/-- The attribute list of a node (empty for text nodes). -/
def attrsOf : HNode → List (String × String)
  | HNode.txt _ => []
  | HNode.elem _ a _ => a

/-- A body whose only selector match is a `.main-content` element with
trimmed text length exactly 100: no selector match exceeds the
threshold. -/
def exShortBody : HNode :=
  HNode.elem "body" []
    [HNode.elem "div" [("class", "main-content")]
      [HNode.txt "aaaaaaaaaaaaaaaaaaaaaaaaaaaaaaaaaaaaaaaaaaaaaaaaaaaaaaaaaaaaaaaaaaaaaaaaaaaaaaaaaaaaaaaaaaaaaaaaaaaa"]]

/-- A body with an `article` element whose trimmed text length is 101. -/
def exGoodBody : HNode :=
  HNode.elem "body" []
    [HNode.elem "article" []
      [HNode.txt "bbbbbbbbbbbbbbbbbbbbbbbbbbbbbbbbbbbbbbbbbbbbbbbbbbbbbbbbbbbbbbbbbbbbbbbbbbbbbbbbbbbbbbbbbbbbbbbbbbbbb"]]

/-- C7 counterexample: on `exShortBody` no selector match qualifies (the
spec-worded first-qualifying selection returns `none`), so the claim
requires the fallback to the full cleaned subtree; but `selectMain`
returns the `.main-content` element (class attribute "main-content"),
not the wrapper (which has no class attribute), because its trimmed text
length is exactly 100. -/
theorem claim_C7_counterexample :
    specFirstQualifying (mkTemp exShortBody) mainSelectorsV2 = none ∧
    getAttrL (attrsOf (selectMain (mkTemp exShortBody))) "class" =
      some "main-content" ∧
    getAttrL (attrsOf (mkTemp exShortBody)) "class" = none ∧
    selectMain (mkTemp exShortBody) ≠ mkTemp exShortBody := by
  refine ⟨rfl, rfl, rfl, ?_⟩
  intro h
  have h2 : getAttrL (attrsOf (selectMain (mkTemp exShortBody))) "class" =
      getAttrL (attrsOf (mkTemp exShortBody)) "class" := by rw [h]
  rw [show getAttrL (attrsOf (selectMain (mkTemp exShortBody))) "class" =
      some "main-content" from rfl] at h2
  rw [show getAttrL (attrsOf (mkTemp exShortBody)) "class" =
      (none : Option String) from rfl] at h2
  cases h2

/-- C7 witness: the amended claim applied to two concrete documents: on
`exGoodBody` the first qualifying selector match (the article) is
selected; on `exShortBody` nothing qualifies and the boundary disjunction
holds. -/
theorem claim_C7_witness :
    selectMain (mkTemp exGoodBody) =
      HNode.elem "article" [] [HNode.txt "bbbbbbbbbbbbbbbbbbbbbbbbbbbbbbbbbbbbbbbbbbbbbbbbbbbbbbbbbbbbbbbbbbbbbbbbbbbbbbbbbbbbbbbbbbbbbbbbbbbbb"] ∧
    (selectMain (mkTemp exShortBody) = mkTemp exShortBody ∨
      ∃ m, querySel (Sel.cls "main-content") (mkTemp exShortBody) = some m ∧
        textLenTrim m = 100 ∧ selectMain (mkTemp exShortBody) = m) :=
  ⟨(claim_C7_amended (mkTemp exGoodBody)).1
      (HNode.elem "article" [] [HNode.txt "bbbbbbbbbbbbbbbbbbbbbbbbbbbbbbbbbbbbbbbbbbbbbbbbbbbbbbbbbbbbbbbbbbbbbbbbbbbbbbbbbbbbbbbbbbbbbbbbbbbbb"]) rfl,
    (claim_C7_amended (mkTemp exShortBody)).2 rfl⟩

mutual
theorem pruneT_establishes (p : HNode → Bool)
    (hp : ∀ t a cs cs2, p (HNode.elem t a cs) = p (HNode.elem t a cs2))
    (n : HNode) (hkeep : p n = false) :
    allElemsT (fun x => !(p x)) (pruneT p n) = true := by
  match n with
  | HNode.txt s => rfl
  | HNode.elem t a cs =>
    simp only [pruneT, allElemsT, Bool.and_eq_true]
    refine ⟨?_, pruneF_establishes p hp cs⟩
    rw [hp t a (pruneF p cs) cs, hkeep]
    rfl
theorem pruneF_establishes (p : HNode → Bool)
    (hp : ∀ t a cs cs2, p (HNode.elem t a cs) = p (HNode.elem t a cs2))
    (ns : List HNode) :
    allElemsF (fun x => !(p x)) (pruneF p ns) = true := by
  match ns with
  | [] => rfl
  | n :: rest =>
    simp only [pruneF]
    by_cases h : p n = true
    · rw [if_pos h]
      exact pruneF_establishes p hp rest
    · rw [Bool.not_eq_true] at h
      rw [if_neg (by simp [h])]
      simp only [allElemsF, Bool.and_eq_true]
      exact ⟨pruneT_establishes p hp n h, pruneF_establishes p hp rest⟩
end

mutual
theorem pruneT_preserves (p q : HNode → Bool)
    (hq : ∀ t a cs cs2, q (HNode.elem t a cs) = q (HNode.elem t a cs2))
    (n : HNode) (h : allElemsT q n = true) :
    allElemsT q (pruneT p n) = true := by
  match n with
  | HNode.txt s => rfl
  | HNode.elem t a cs =>
    simp only [allElemsT, Bool.and_eq_true] at h
    simp only [pruneT, allElemsT, Bool.and_eq_true]
    exact ⟨by rw [hq t a (pruneF p cs) cs]; exact h.1,
      pruneF_preserves p q hq cs h.2⟩
theorem pruneF_preserves (p q : HNode → Bool)
    (hq : ∀ t a cs cs2, q (HNode.elem t a cs) = q (HNode.elem t a cs2))
    (ns : List HNode) (h : allElemsF q ns = true) :
    allElemsF q (pruneF p ns) = true := by
  match ns with
  | [] => rfl
  | n :: rest =>
    simp only [allElemsF, Bool.and_eq_true] at h
    simp only [pruneF]
    by_cases hp : p n = true
    · rw [if_pos hp]
      exact pruneF_preserves p q hq rest h.2
    · rw [Bool.not_eq_true] at hp
      rw [if_neg (by simp [hp])]
      simp only [allElemsF, Bool.and_eq_true]
      exact ⟨pruneT_preserves p q hq n h.1, pruneF_preserves p q hq rest h.2⟩
end

mutual
theorem findT_inv (s : Sel) (q : HNode → Bool) (n m : HNode)
    (ha : allElemsT q n = true) (hf : findT s n = some m) :
    allElemsT q m = true := by
  match n with
  | HNode.txt u => simp [findT] at hf
  | HNode.elem t a cs =>
    simp only [findT] at hf
    by_cases hm : matchTA s t a = true
    · rw [if_pos hm] at hf
      injection hf with hf
      rw [← hf]
      exact ha
    · rw [Bool.not_eq_true] at hm
      rw [if_neg (by simp [hm])] at hf
      simp only [allElemsT, Bool.and_eq_true] at ha
      exact findF_inv s q cs m ha.2 hf
theorem findF_inv (s : Sel) (q : HNode → Bool) (ns : List HNode) (m : HNode)
    (ha : allElemsF q ns = true) (hf : findF s ns = some m) :
    allElemsT q m = true := by
  match ns with
  | [] => simp [findF] at hf
  | n :: rest =>
    simp only [allElemsF, Bool.and_eq_true] at ha
    simp only [findF] at hf
    match hx : findT s n with
    | some m0 =>
      rw [hx] at hf
      injection hf with hf
      rw [← hf]
      exact findT_inv s q n m0 ha.1 hx
    | none =>
      rw [hx] at hf
      exact findF_inv s q rest m ha.2 hf
end

theorem allElemsF_childrenOf (q : HNode → Bool) (n : HNode)
    (h : allElemsT q n = true) : allElemsF q (childrenOf n) = true := by
  match n with
  | HNode.txt s => rfl
  | HNode.elem t a cs =>
    simp only [allElemsT, Bool.and_eq_true] at h
    exact h.2

theorem querySel_inv (s : Sel) (q : HNode → Bool) (temp m : HNode)
    (ha : allElemsT q temp = true) (h : querySel s temp = some m) :
    allElemsT q m = true :=
  findF_inv s q (childrenOf temp) m (allElemsF_childrenOf q temp ha) h

theorem scanSelectors_inv (sels : List Sel) (q : HNode → Bool) (temp m : HNode)
    (ha : allElemsT q temp = true) (h : scanSelectors temp sels = some m) :
    allElemsT q m = true := by
  induction sels with
  | nil => simp [scanSelectors] at h
  | cons s rest ih =>
    cases hq : querySel s temp with
    | none =>
      simp only [scanSelectors, hq] at h
      exact ih h
    | some m0 =>
      have hm0 := querySel_inv s q temp m0 ha hq
      simp only [scanSelectors, hq] at h
      cases rest with
      | nil =>
        simp only [List.isEmpty_nil, if_pos] at h
        injection h with h
        rw [← h]; exact hm0
      | cons s2 rs =>
        simp only [List.isEmpty_cons, Bool.false_eq_true, if_false] at h
        by_cases h100 : 100 < textLenTrim m0
        · rw [if_pos h100] at h
          injection h with h
          rw [← h]; exact hm0
        · rw [if_neg h100] at h
          exact ih h

theorem selectMain_inv (q : HNode → Bool) (temp : HNode)
    (ha : allElemsT q temp = true) : allElemsT q (selectMain temp) = true := by
  cases hs : scanSelectors temp mainSelectorsV2 with
  | none => simpa [selectMain, hs] using ha
  | some m =>
    have hm := scanSelectors_inv mainSelectorsV2 q temp m ha hs
    by_cases hlt : textLenTrim m < 100
    · simpa [selectMain, hs, hlt] using ha
    · simpa [selectMain, hs, hlt] using hm

theorem getAttrL_updateHref : ∀ (a : List (String × String)) (key : String),
    key ≠ "href" → getAttrL (updateHrefAttrs a) key = getAttrL a key
  | [], _, _ => rfl
  | (k, v) :: rest, key, hk => by
    simp only [updateHrefAttrs]
    by_cases hkh : k = "href"
    · subst hkh
      rw [if_pos rfl]
      simp only [getAttrL]
      rw [if_neg (fun he => hk he.symm), if_neg (fun he => hk he.symm)]
      exact getAttrL_updateHref rest key hk
    · rw [if_neg hkh]
      simp only [getAttrL]
      by_cases hkey : k = key
      · rw [if_pos hkey, if_pos hkey]
      · rw [if_neg hkey, if_neg hkey]
        exact getAttrL_updateHref rest key hk

/-- Selectors that never consult the `href` attribute (every selector in
the noise and hidden lists is of this kind). -/
def selHrefBlind : Sel → Bool
  | Sel.tag _ => true
  | Sel.cls _ => true
  | Sel.idIs _ => true
  | Sel.attrEq k _ => !(k == "href")
  | Sel.attrSub k _ => !(k == "href")
  | Sel.attrPresent k => !(k == "href")

theorem matchTA_updateHref (s : Sel) (t : String) (a : List (String × String))
    (hs : selHrefBlind s = true) :
    matchTA s t (updateHrefAttrs a) = matchTA s t a := by
  cases s with
  | tag u => rfl
  | cls c =>
    simp only [matchTA, classTokens,
      getAttrL_updateHref a "class" (by decide)]
  | idIs i =>
    simp only [matchTA, getAttrL_updateHref a "id" (by decide)]
  | attrEq k v =>
    simp only [selHrefBlind, Bool.not_eq_eq_eq_not, Bool.not_true] at hs
    have hk : k ≠ "href" := by simpa using hs
    simp only [matchTA, getAttrL_updateHref a k hk]
  | attrSub k v =>
    simp only [selHrefBlind, Bool.not_eq_eq_eq_not, Bool.not_true] at hs
    have hk : k ≠ "href" := by simpa using hs
    simp only [matchTA, getAttrL_updateHref a k hk]
  | attrPresent k =>
    simp only [selHrefBlind, Bool.not_eq_eq_eq_not, Bool.not_true] at hs
    have hk : k ≠ "href" := by simpa using hs
    simp only [matchTA, getAttrL_updateHref a k hk]

theorem anyMatch_updateHref (sels : List Sel) (t : String)
    (a : List (String × String)) (hall : sels.all selHrefBlind = true) :
    (sels.any fun s => matchTA s t (updateHrefAttrs a)) =
      (sels.any fun s => matchTA s t a) := by
  induction sels with
  | nil => rfl
  | cons s rest ih =>
    simp only [List.all_cons, Bool.and_eq_true] at hall
    simp only [List.any_cons, matchTA_updateHref s t a hall.1, ih hall.2]

theorem noiseB_updateHref (t : String) (a : List (String × String))
    (cs cs2 : List HNode) :
    noiseB (HNode.elem t (updateHrefAttrs a) cs) = noiseB (HNode.elem t a cs2) := by
  show (unwantedSelectorsV2.any fun s => matchTA s t (updateHrefAttrs a)) =
    (unwantedSelectorsV2.any fun s => matchTA s t a)
  exact anyMatch_updateHref unwantedSelectorsV2 t a (by decide)

theorem hiddenB_updateHref (t : String) (a : List (String × String))
    (cs cs2 : List HNode) :
    hiddenB (HNode.elem t (updateHrefAttrs a) cs) = hiddenB (HNode.elem t a cs2) := by
  show (hiddenSelectors.any fun s => matchTA s t (updateHrefAttrs a)) =
    (hiddenSelectors.any fun s => matchTA s t a)
  exact anyMatch_updateHref hiddenSelectors t a (by decide)

mutual
theorem cleanLinksT_preserves (q : HNode → Bool)
    (hq : ∀ t a cs cs2, q (HNode.elem t a cs) = q (HNode.elem t a cs2))
    (hhref : ∀ t a cs cs2,
      q (HNode.elem t (updateHrefAttrs a) cs) = q (HNode.elem t a cs2))
    (n : HNode) (h : allElemsT q n = true) :
    allElemsT q (cleanLinksT n) = true := by
  match n with
  | HNode.txt s => rfl
  | HNode.elem t a cs =>
    simp only [allElemsT, Bool.and_eq_true] at h
    simp only [cleanLinksT, allElemsT, Bool.and_eq_true]
    refine ⟨?_, cleanLinksF_preserves q hq hhref cs h.2⟩
    by_cases ha : t = "a"
    · rw [if_pos ha, hhref t a (cleanLinksF cs) cs]
      exact h.1
    · rw [if_neg ha, hq t a (cleanLinksF cs) cs]
      exact h.1
theorem cleanLinksF_preserves (q : HNode → Bool)
    (hq : ∀ t a cs cs2, q (HNode.elem t a cs) = q (HNode.elem t a cs2))
    (hhref : ∀ t a cs cs2,
      q (HNode.elem t (updateHrefAttrs a) cs) = q (HNode.elem t a cs2))
    (ns : List HNode) (h : allElemsF q ns = true) :
    allElemsF q (cleanLinksF ns) = true := by
  match ns with
  | [] => rfl
  | n :: rest =>
    simp only [allElemsF, Bool.and_eq_true] at h
    simp only [cleanLinksF, allElemsF, Bool.and_eq_true]
    exact ⟨cleanLinksT_preserves q hq hhref n h.1,
      cleanLinksF_preserves q hq hhref rest h.2⟩
end

theorem childrenOf_pruneT (p : HNode → Bool) (n : HNode) :
    childrenOf (pruneT p n) = pruneF p (childrenOf n) := by
  match n with
  | HNode.txt s => rfl
  | HNode.elem t a cs => rfl

theorem childrenOf_cleanLinksRoot (n : HNode) :
    childrenOf (cleanLinksRoot n) = cleanLinksF (childrenOf n) := by
  match n with
  | HNode.txt s => rfl
  | HNode.elem t a cs => rfl

/-- C5 amended: for every input document, every element of the extracted
output (the serialized region's forest) fails the later revision's actual
noise-exclusion predicate (script/style/iframe/noscript/link/meta tags,
header/footer tags, class or id containing "ad-", class containing
"advertisement", class token among navigation / nav / sidebar /
cookie-banner / newsletter-signup / social-share / comments) and also
fails the hidden-element predicate - hence no translatable unit text
originates from such an element.  The claim's larger predicate (forms,
and the earlier revision's substrings popup / modal / banner / ...) is
NOT excluded by this code; see the counterexample. -/
theorem claim_C5_amended (body : HNode) :
    allElemsF (fun n => !(noiseB n)) (outputForest body) = true ∧
    allElemsF (fun n => !(hiddenB n)) (outputForest body) = true := by
  have hpN : ∀ t a cs cs2, noiseB (HNode.elem t a cs) = noiseB (HNode.elem t a cs2) :=
    fun _ _ _ _ => rfl
  have hpH : ∀ t a cs cs2,
      hiddenB (HNode.elem t a cs) = hiddenB (HNode.elem t a cs2) :=
    fun _ _ _ _ => rfl
  have hqN : ∀ t a cs cs2, (fun n => !(noiseB n)) (HNode.elem t a cs) =
      (fun n => !(noiseB n)) (HNode.elem t a cs2) := fun _ _ _ _ => rfl
  have hqH : ∀ t a cs cs2, (fun n => !(hiddenB n)) (HNode.elem t a cs) =
      (fun n => !(hiddenB n)) (HNode.elem t a cs2) := fun _ _ _ _ => rfl
  have hhrefN : ∀ t a cs cs2,
      (fun n => !(noiseB n)) (HNode.elem t (updateHrefAttrs a) cs) =
        (fun n => !(noiseB n)) (HNode.elem t a cs2) := by
    intro t a cs cs2
    simp only []
    rw [noiseB_updateHref t a cs cs2]
  have hhrefH : ∀ t a cs cs2,
      (fun n => !(hiddenB n)) (HNode.elem t (updateHrefAttrs a) cs) =
        (fun n => !(hiddenB n)) (HNode.elem t a cs2) := by
    intro t a cs cs2
    simp only []
    rw [hiddenB_updateHref t a cs cs2]
  have hforest0 := pruneF_establishes noiseB hpN [body]
  have htemp : allElemsT (fun n => !(noiseB n)) (mkTemp body) = true := by
    simp only [mkTemp, allElemsT, Bool.and_eq_true]
    exact ⟨rfl, hforest0⟩
  have hsel := selectMain_inv (fun n => !(noiseB n)) (mkTemp body) htemp
  have hempty := pruneT_preserves isEmptyElemB (fun n => !(noiseB n)) hqN
    (selectMain (mkTemp body)) hsel
  have hhidN := pruneT_preserves hiddenB (fun n => !(noiseB n)) hqN
    (pruneT isEmptyElemB (selectMain (mkTemp body))) hempty
  have hchN := allElemsF_childrenOf (fun n => !(noiseB n)) _ hhidN
  have hchH : allElemsF (fun n => !(hiddenB n))
      (childrenOf (pruneT hiddenB
        (pruneT isEmptyElemB (selectMain (mkTemp body))))) = true := by
    rw [childrenOf_pruneT]
    exact pruneF_establishes hiddenB hpH _
  constructor
  · simp only [outputForest, extractRegion, childrenOf_cleanLinksRoot]
    exact cleanLinksF_preserves (fun n => !(noiseB n)) hqN hhrefN _ hchN
  · simp only [outputForest, extractRegion, childrenOf_cleanLinksRoot]
    exact cleanLinksF_preserves (fun n => !(hiddenB n)) hqH hhrefH _ hchH

/-- A document whose article contains a long paragraph and a `form` with
text: the later revision's unwanted-selector list does not remove
`form` elements. -/
def exFormBody : HNode :=
  HNode.elem "body" []
    [HNode.elem "article" []
      [HNode.elem "p" [] [HNode.txt "pppppppppppppppppppppppppppppppppppppppppppppppppppppppppppppppppppppppppppppppppppppppppppppppppppppppppppppp"],
       HNode.elem "form" [] [HNode.txt "Subscribe to our newsletter now"]]]

/-- C5 counterexample: the claim's noise predicate includes forms, but a
`form` element (with its text) survives extraction: the output forest
contains a `form` element and the partitioned units contain the text that
originates from it. -/
theorem claim_C5_counterexample :
    (findF (Sel.tag "form") (outputForest exFormBody)).isSome = true ∧
    (partitionF (outputForest exFormBody)).contains
      "Subscribe to our newsletter now" = true := by
  constructor
  · rfl
  · rfl

/-- A document whose article contains a long paragraph and a link whose
href carries the two tracking parameters of the claim. -/
def exLinkBody : HNode :=
  HNode.elem "body" []
    [HNode.elem "article" []
      [HNode.elem "p" [] [HNode.txt "qqqqqqqqqqqqqqqqqqqqqqqqqqqqqqqqqqqqqqqqqqqqqqqqqqqqqqqqqqqqqqqqqqqqqqqqqqqqqqqqqqqqqqqqqqqqqqqqqqqqqqqqqqqqqq"],
       HNode.elem "a" [("href", "https://example.com?utm_source=test&ref=123")]
         [HNode.txt "Link"]]]

/-- C8: link cleaning follows the refined (allow-list) policy: for every
href the model can parse, the rewritten URL is rebuilt from only the
query pairs whose names are outside the tracking list
utm_source / utm_medium / utm_campaign / ref / source; in particular the
claim's concrete href loses its whole query, and running the full
extractor over a document containing that link yields an `a` element with
href "https://example.com" in the output. -/
theorem claim_C8 :
    (∀ h base ps, jsNewUrl h = Except.ok (base, ps) →
      ∃ kept, cleanHrefCaught h = renderUrl base kept ∧
        ∀ p ∈ kept, trackedNames.contains p.1 = false) ∧
    cleanHrefCaught "https://example.com?utm_source=test&ref=123" =
      "https://example.com" ∧
    (findF (Sel.attrEq "href" "https://example.com")
      (outputForest exLinkBody)).isSome = true := by
  refine ⟨?_, rfl, rfl⟩
  intro h base ps hok
  refine ⟨ps.filter (fun p => !(trackedNames.contains p.1)), ?_, ?_⟩
  · simp only [cleanHrefCaught, hok]
  · intro p hp
    have := (List.mem_filter.mp hp).2
    simpa using this

/-- C8 witness: the general clause applied to the claim's concrete
href. -/
theorem claim_C8_witness :
    ∃ kept,
      cleanHrefCaught "https://example.com?utm_source=test&ref=123" =
        renderUrl "https://example.com" kept ∧
      ∀ p ∈ kept, trackedNames.contains p.1 = false :=
  claim_C8.1 "https://example.com?utm_source=test&ref=123" "https://example.com"
    [("utm_source", "test"), ("ref", "123")] rfl

/-- A document containing a link whose href `new URL` cannot parse. -/
def exBadHrefBody : HNode :=
  HNode.elem "body" []
    [HNode.elem "article" []
      [HNode.elem "p" [] [HNode.txt "rrrrrrrrrrrrrrrrrrrrrrrrrrrrrrrrrrrrrrrrrrrrrrrrrrrrrrrrrrrrrrrrrrrrrrrrrrrrrrrrrrrrrrrrrrrrrrrrrrrrrrrrrrrrrr"],
       HNode.elem "a" [("href", "not a url")] [HNode.txt "Link"]]]

/-- C9: `extractMainContent` never raises: the pipeline is total - its
only fallible operation, `new URL`, is caught per link (an unparsable
href is left as-is and extraction still succeeds) - and an input with no
qualifying content degrades to the empty fragment, which the caller
detects through its emptiness check rather than through an exception. -/
theorem claim_C9 (body : HNode) :
    (∃ s, extractMainContentE body = Except.ok s) ∧
    extractMainContentE (HNode.elem "body" [] []) = Except.ok "" ∧
    contentFound (HNode.elem "body" [] []) = false ∧
    (findF (Sel.attrEq "href" "not a url")
      (outputForest exBadHrefBody)).isSome = true ∧
    (∃ s, extractMainContentE exBadHrefBody = Except.ok s) :=
  ⟨⟨extractMainContent body, rfl⟩, rfl, rfl, rfl,
    ⟨extractMainContent exBadHrefBody, rfl⟩⟩
